import Mathlib

/-!
Verification of the finance file-downloader pipeline (`src/app.py`).

The program reads a CSV manifest, downloads per-row document URLs into a
`RID_{id}/{year}/{category}` folder tree, zips the tree, and splits the zip
into raw byte parts when it exceeds a 23 MiB ceiling.  This file gives a
shallow embedding of those stages and proves (or refutes) the spec claims
about them.

Conventions of the embedding:
- bytes are `Nat`, byte streams are `List Nat`;
- the network is an oracle `fetch : String → FetchResult`;
- `pd.to_datetime` is an oracle `parseDate : String → Option Date`, `none`
  modelling the exception raised on an unparseable date;
- the filesystem of one run is explicit state: created directories, written
  files, emitted warning messages, and a log of attempted URLs.
-/

/-- Raw byte streams. -/
abbrev Bytes := List Nat

/-! ## Archive splitting (app.py lines 114, 133-144)

`MAX_SIZE = 23 * 1024 * 1024`; the loop repeatedly does `chunk = f.read(MAX_SIZE)`,
stops on an empty read, and otherwise emits `chunk` as part `part_num`
(starting at 1).  `splitRun c k s` is that loop with ceiling `c`, next part
number `k`, and remaining stream `s`: `f.read(c)` is `s.take c`, advancing the
file position is `s.drop c`. -/
def splitRun (c : Nat) (k : Nat) (s : Bytes) : List (Nat × Bytes) :=
  if h : s.take c = [] then []
  else (k, s.take c) :: splitRun c (k + 1) (s.drop c)
termination_by s.length
decreasing_by
  have hc : 0 < c := by
    rcases Nat.eq_zero_or_pos c with h0 | h0
    · exact absurd (by simp [h0]) h
    · exact h0
  have hs : s ≠ [] := by
    intro h0
    exact h (by simp [h0])
  simp only [List.length_drop]
  exact Nat.sub_lt (List.length_pos.mpr hs) hc

/-- The ceiling used by the app: 23 MiB. -/
def MAX_SIZE : Nat := 23 * 1024 * 1024

/-- Name of the single-archive artifact (app.py line 117). -/
def archiveName : String := "finance_output.zip"

/-- Name of split part `n` (app.py line 139). -/
def partName (n : Nat) : String := "finance_output_part" ++ toString n ++ ".zip"

/-- Packaging decision (app.py lines 125-144): if the zip's size is at most
the ceiling the single archive is the sole artifact, otherwise the split loop
emits the numbered parts. -/
def packageArtifacts (c : Nat) (s : Bytes) : List (String × Bytes) :=
  if s.length ≤ c then [(archiveName, s)]
  else (splitRun c 1 s).map (fun p => (partName p.1, p.2))

theorem splitRun_nil (c k : Nat) : splitRun c k [] = [] := by
  unfold splitRun; simp

theorem splitRun_cons (c k : Nat) (s : Bytes) (h : ¬ s.take c = []) :
    splitRun c k s = (k, s.take c) :: splitRun c (k + 1) (s.drop c) := by
  rw [splitRun]; simp [h]

theorem take_eq_nil_of_pos {c : Nat} (hc : 0 < c) {s : Bytes} (h : s.take c = []) :
    s = [] := by
  rcases List.take_eq_nil_iff.mp h with h0 | h0
  · omega
  · exact h0

theorem drop_length_le {c n : Nat} {s : Bytes} (hc : 0 < c) (hs : s ≠ [])
    (hn : s.length ≤ n + 1) : (s.drop c).length ≤ n := by
  have h1 : 0 < s.length := List.length_pos.mpr hs
  simp only [List.length_drop]
  omega

theorem splitRun_flatten_aux (c : Nat) (hc : 0 < c) :
    ∀ (n : Nat) (s : Bytes), s.length ≤ n → ∀ k,
      ((splitRun c k s).map Prod.snd).flatten = s := by
  intro n
  induction n with
  | zero =>
    intro s hs k
    have h0 : s = [] := by
      cases s with
      | nil => rfl
      | cons a t => simp at hs
    subst h0
    rw [splitRun_nil]
    rfl
  | succ n ih =>
    intro s hs k
    by_cases h : s.take c = []
    · have h0 := take_eq_nil_of_pos hc h
      subst h0
      rw [splitRun_nil]
      rfl
    · have hne : s ≠ [] := by
        intro h0
        exact h (by simp [h0])
      rw [splitRun_cons c k s h]
      simp only [List.map_cons, List.flatten_cons]
      rw [ih (s.drop c) (drop_length_le hc hne hs) (k + 1)]
      exact List.take_append_drop c s

theorem splitRun_flatten (c : Nat) (hc : 0 < c) (k : Nat) (s : Bytes) :
    ((splitRun c k s).map Prod.snd).flatten = s :=
  splitRun_flatten_aux c hc s.length s le_rfl k

theorem splitRun_parts_nonempty (c : Nat) :
    ∀ (n : Nat) (s : Bytes), s.length ≤ n → ∀ k,
      ∀ p ∈ splitRun c k s, p.2 ≠ [] := by
  intro n
  induction n with
  | zero =>
    intro s hs k p hp
    have h0 : s = [] := by
      cases s with
      | nil => rfl
      | cons a t => simp at hs
    subst h0
    rw [splitRun_nil] at hp
    simp at hp
  | succ n ih =>
    intro s hs k p hp
    by_cases h : s.take c = []
    · have : splitRun c k s = [] := by rw [splitRun]; simp [h]
      rw [this] at hp
      simp at hp
    · have hc : 0 < c := by
        rcases Nat.eq_zero_or_pos c with h0 | h0
        · exact absurd (by simp [h0]) h
        · exact h0
      have hne : s ≠ [] := by
        intro h0
        exact h (by simp [h0])
      rw [splitRun_cons c k s h] at hp
      rcases List.mem_cons.mp hp with h1 | h1
      · subst h1
        exact h
      · exact ih (s.drop c) (drop_length_le hc hne hs) (k + 1) p h1

/-- Arithmetic step behind the part count: one more chunk of `c` bytes. -/
theorem chunk_count_step (c m : Nat) (hc : 0 < c) (hm : 0 < m) :
    ((m - c) + c - 1) / c + 1 = (m + c - 1) / c := by
  rcases le_or_lt m c with hle | hlt
  · have h1 : (m - c) + c - 1 = c - 1 := by omega
    have h2 : m + c - 1 = (m - 1) + c := by omega
    rw [h1, h2, Nat.add_div_right _ hc,
      Nat.div_eq_of_lt (by omega), Nat.div_eq_of_lt (by omega)]
  · have h1 : (m - c) + c - 1 = (m - 1 - c) + c := by omega
    have h2 : m + c - 1 = (m - 1) + c := by omega
    have h3 : m - 1 = (m - 1 - c) + c := by omega
    rw [h1, h2, Nat.add_div_right _ hc, Nat.add_div_right _ hc]
    have h4 : (m - 1) / c = (m - 1 - c) / c + 1 := by
      conv_lhs => rw [h3]
      rw [Nat.add_div_right _ hc]
    omega

theorem splitRun_length_aux (c : Nat) (hc : 0 < c) :
    ∀ (n : Nat) (s : Bytes), s.length ≤ n → ∀ k,
      (splitRun c k s).length = (s.length + c - 1) / c := by
  intro n
  induction n with
  | zero =>
    intro s hs k
    have h0 : s = [] := by
      cases s with
      | nil => rfl
      | cons a t => simp at hs
    subst h0
    rw [splitRun_nil]
    simp
    exact (Nat.div_eq_of_lt (by omega)).symm
  | succ n ih =>
    intro s hs k
    by_cases h : s.take c = []
    · have h0 := take_eq_nil_of_pos hc h
      subst h0
      rw [splitRun_nil]
      simp
      exact (Nat.div_eq_of_lt (by omega)).symm
    · have hne : s ≠ [] := by
        intro h0
        exact h (by simp [h0])
      have hm : 0 < s.length := List.length_pos.mpr hne
      rw [splitRun_cons c k s h]
      simp only [List.length_cons]
      rw [ih (s.drop c) (drop_length_le hc hne hs) (k + 1)]
      simp only [List.length_drop]
      exact chunk_count_step c s.length hc hm

theorem splitRun_length (c : Nat) (hc : 0 < c) (k : Nat) (s : Bytes) :
    (splitRun c k s).length = (s.length + c - 1) / c :=
  splitRun_length_aux c hc s.length s le_rfl k

theorem splitRun_map_fst_aux (c : Nat) :
    ∀ (n : Nat) (s : Bytes), s.length ≤ n → ∀ k,
      (splitRun c k s).map Prod.fst = List.range' k (splitRun c k s).length := by
  intro n
  induction n with
  | zero =>
    intro s hs k
    have h0 : s = [] := by
      cases s with
      | nil => rfl
      | cons a t => simp at hs
    subst h0
    rw [splitRun_nil]
    rfl
  | succ n ih =>
    intro s hs k
    by_cases h : s.take c = []
    · have : splitRun c k s = [] := by rw [splitRun]; simp [h]
      rw [this]
      rfl
    · have hc : 0 < c := by
        rcases Nat.eq_zero_or_pos c with h0 | h0
        · exact absurd (by simp [h0]) h
        · exact h0
      have hne : s ≠ [] := by
        intro h0
        exact h (by simp [h0])
      rw [splitRun_cons c k s h]
      simp only [List.map_cons, List.length_cons]
      rw [List.range'_succ]
      rw [ih (s.drop c) (drop_length_le hc hne hs) (k + 1)]

theorem dropLast_cons_ne {α : Type} (a : α) (l : List α) (h : l ≠ []) :
    (a :: l).dropLast = a :: l.dropLast := by
  cases l with
  | nil => exact absurd rfl h
  | cons b t => rfl

theorem getLast?_cons_ne {α : Type} (a : α) (l : List α) (h : l ≠ []) :
    (a :: l).getLast? = l.getLast? := by
  cases l with
  | nil => exact absurd rfl h
  | cons b t => exact List.getLast?_cons_cons

theorem splitRun_ne_nil {c k : Nat} {s : Bytes} (hc : 0 < c) (hs : s ≠ []) :
    splitRun c k s ≠ [] := by
  have h : ¬ s.take c = [] := by
    intro h0
    exact hs (take_eq_nil_of_pos hc h0)
  rw [splitRun_cons c k s h]
  simp

theorem splitRun_dropLast_len (c : Nat) (hc : 0 < c) :
    ∀ (n : Nat) (s : Bytes), s.length ≤ n → ∀ k,
      ∀ p ∈ (splitRun c k s).dropLast, p.2.length = c := by
  intro n
  induction n with
  | zero =>
    intro s hs k p hp
    have h0 : s = [] := by
      cases s with
      | nil => rfl
      | cons a t => simp at hs
    subst h0
    rw [splitRun_nil] at hp
    simp at hp
  | succ n ih =>
    intro s hs k p hp
    by_cases h : s.take c = []
    · have h0 := take_eq_nil_of_pos hc h
      subst h0
      rw [splitRun_nil] at hp
      simp at hp
    · have hne : s ≠ [] := by
        intro h0
        exact h (by simp [h0])
      rw [splitRun_cons c k s h] at hp
      by_cases hrest : splitRun c (k + 1) (s.drop c) = []
      · rw [hrest] at hp
        simp at hp
      · rw [dropLast_cons_ne _ _ hrest] at hp
        rcases List.mem_cons.mp hp with h1 | h1
        · subst h1
          have hlt : c < s.length := by
            by_contra hle
            have hdrop : s.drop c = [] := List.drop_eq_nil_of_le (by omega)
            rw [hdrop, splitRun_nil] at hrest
            exact hrest rfl
          simp only [List.length_take]
          omega
        · exact ih (s.drop c) (drop_length_le hc hne hs) (k + 1) p h1

theorem splitRun_getLast_len (c : Nat) (hc : 0 < c) :
    ∀ (n : Nat) (s : Bytes), s.length ≤ n → ∀ k p,
      (splitRun c k s).getLast? = some p →
      p.2.length = (if s.length % c = 0 then c else s.length % c) := by
  intro n
  induction n with
  | zero =>
    intro s hs k p hp
    have h0 : s = [] := by
      cases s with
      | nil => rfl
      | cons a t => simp at hs
    subst h0
    rw [splitRun_nil] at hp
    simp at hp
  | succ n ih =>
    intro s hs k p hp
    by_cases h : s.take c = []
    · have h0 := take_eq_nil_of_pos hc h
      subst h0
      rw [splitRun_nil] at hp
      simp at hp
    · have hne : s ≠ [] := by
        intro h0
        exact h (by simp [h0])
      have hm : 0 < s.length := List.length_pos.mpr hne
      rw [splitRun_cons c k s h] at hp
      by_cases hrest : splitRun c (k + 1) (s.drop c) = []
      · rw [hrest] at hp
        simp at hp
        have hle : s.length ≤ c := by
          by_contra hlt
          have hdne : s.drop c ≠ [] := by
            intro h0
            have hlen := congrArg List.length h0
            simp only [List.length_drop, List.length_nil] at hlen
            omega
          exact splitRun_ne_nil hc hdne hrest
        have hpt : p = (k, s.take c) := hp.symm
        subst hpt
        simp only [List.length_take]
        by_cases heq : s.length = c
        · rw [if_pos (by rw [heq]; exact Nat.mod_self c)]
          omega
        · have hltc : s.length < c := by omega
          rw [if_neg (by rw [Nat.mod_eq_of_lt hltc]; omega)]
          rw [Nat.mod_eq_of_lt hltc]
          omega
      · rw [getLast?_cons_ne _ _ hrest] at hp
        have hlt : c < s.length := by
          by_contra hle
          have hdrop : s.drop c = [] := List.drop_eq_nil_of_le (by omega)
          rw [hdrop, splitRun_nil] at hrest
          exact hrest rfl
        have hres := ih (s.drop c) (drop_length_le hc hne hs) (k + 1) p hp
        simp only [List.length_drop] at hres
        have hmod : (s.length - c) % c = s.length % c := by
          conv_rhs => rw [show s.length = (s.length - c) + c by omega]
          rw [Nat.add_mod_right]
        rw [hmod] at hres
        exact hres

/-- C1: whenever the packager splits, concatenating the emitted parts in
ascending part-number order reproduces the pre-split archive byte stream
byte-for-byte, and every emitted part is non-empty; when the archive fits the
ceiling (in particular for the empty-tree archive) exactly one artifact is
produced. -/
theorem archive_split_roundtrip (c : Nat) (s : Bytes) (hc : 0 < c) :
    ((packageArtifacts c s).map Prod.snd).flatten = s ∧
    (c < s.length → ∀ a ∈ packageArtifacts c s, a.2 ≠ []) ∧
    (s.length ≤ c → (packageArtifacts c s).length = 1) := by
  unfold packageArtifacts
  by_cases hle : s.length ≤ c
  · rw [if_pos hle]
    exact ⟨by simp, fun hlt => absurd hlt (by omega), fun h0 => rfl⟩
  · rw [if_neg hle]
    refine ⟨?_, ?_, fun hle2 => absurd hle2 hle⟩
    · rw [List.map_map]
      have hcomp : (Prod.snd ∘ fun p : Nat × Bytes => (partName p.1, p.2)) = Prod.snd := rfl
      rw [hcomp]
      exact splitRun_flatten c hc 1 s
    · intro hlt a ha
      rcases List.mem_map.mp ha with ⟨p, hp, rfl⟩
      exact splitRun_parts_nonempty c s.length s le_rfl 1 p hp

/-- Witness for C1 at ceiling 2 and the byte stream [1, 2, 3]. -/
theorem archive_split_roundtrip_witness :
    0 < 2 ∧
    (((packageArtifacts 2 [1, 2, 3]).map Prod.snd).flatten = [1, 2, 3] ∧
     (2 < ([1, 2, 3] : Bytes).length → ∀ a ∈ packageArtifacts 2 [1, 2, 3], a.2 ≠ []) ∧
     (([1, 2, 3] : Bytes).length ≤ 2 → (packageArtifacts 2 [1, 2, 3]).length = 1)) :=
  ⟨by decide, archive_split_roundtrip 2 [1, 2, 3] (by decide)⟩

/-- C2: an archive of size at most the ceiling (including size exactly equal
to it) yields the single archive artifact and no split; a larger archive is
cut into parts of exactly `c` bytes except the last, whose size is the
remainder in 1..c (`c` itself when `c` divides the size); parts are numbered
contiguously starting at 1 in stream order, and there are ceil(size/c) of
them. -/
theorem archive_split_chunk_sizes (c : Nat) (s : Bytes) (hc : 0 < c) :
    (s.length ≤ c → packageArtifacts c s = [(archiveName, s)]) ∧
    (c < s.length →
      packageArtifacts c s = (splitRun c 1 s).map (fun p => (partName p.1, p.2)) ∧
      (splitRun c 1 s).length = (s.length + c - 1) / c ∧
      (splitRun c 1 s).map Prod.fst = List.range' 1 ((s.length + c - 1) / c) ∧
      (∀ p ∈ (splitRun c 1 s).dropLast, p.2.length = c) ∧
      (∀ p, (splitRun c 1 s).getLast? = some p →
        1 ≤ p.2.length ∧ p.2.length ≤ c ∧
        p.2.length = (if s.length % c = 0 then c else s.length % c))) := by
  constructor
  · intro hle
    unfold packageArtifacts
    rw [if_pos hle]
  · intro hlt
    refine ⟨by unfold packageArtifacts; rw [if_neg (by omega)],
      splitRun_length c hc 1 s, ?_,
      fun p hp => splitRun_dropLast_len c hc s.length s le_rfl 1 p hp, ?_⟩
    · rw [← splitRun_length c hc 1 s]
      exact splitRun_map_fst_aux c s.length s le_rfl 1
    · intro p hp
      have hlen := splitRun_getLast_len c hc s.length s le_rfl 1 p hp
      refine ⟨?_, ?_, hlen⟩
      · rw [hlen]
        split_ifs with h0
        · exact hc
        · omega
      · rw [hlen]
        split_ifs with h0
        · exact le_rfl
        · exact le_of_lt (Nat.mod_lt _ hc)

/-- Witness for C2 at ceiling 2 and a 5-byte stream: 3 parts sized 2, 2, 1. -/
theorem archive_split_chunk_sizes_witness :
    0 < 2 ∧
    ((([9, 8, 7, 6, 5] : Bytes).length ≤ 2 →
       packageArtifacts 2 [9, 8, 7, 6, 5] = [(archiveName, [9, 8, 7, 6, 5])]) ∧
     (2 < ([9, 8, 7, 6, 5] : Bytes).length →
       packageArtifacts 2 [9, 8, 7, 6, 5]
         = (splitRun 2 1 [9, 8, 7, 6, 5]).map (fun p => (partName p.1, p.2)) ∧
       (splitRun 2 1 [9, 8, 7, 6, 5]).length = (([9, 8, 7, 6, 5] : Bytes).length + 2 - 1) / 2 ∧
       (splitRun 2 1 [9, 8, 7, 6, 5]).map Prod.fst
         = List.range' 1 ((([9, 8, 7, 6, 5] : Bytes).length + 2 - 1) / 2) ∧
       (∀ p ∈ (splitRun 2 1 [9, 8, 7, 6, 5]).dropLast, p.2.length = 2) ∧
       (∀ p, (splitRun 2 1 [9, 8, 7, 6, 5]).getLast? = some p →
         1 ≤ p.2.length ∧ p.2.length ≤ 2 ∧
         p.2.length = (if ([9, 8, 7, 6, 5] : Bytes).length % 2 = 0 then 2
           else ([9, 8, 7, 6, 5] : Bytes).length % 2)))) :=
  ⟨by decide, archive_split_chunk_sizes 2 [9, 8, 7, 6, 5] (by decide)⟩

/-! ## Dates and categories (app.py lines 89-107)

`pd.to_datetime` yields a timestamp; the code uses `dt.year` (via `str`) and
`dt.strftime("%Y_%m_%d")`.  Pandas timestamps all have four-digit years
(1677..2262), so `%Y` prints the year as plain decimal and `%m`/`%d`
zero-pad to two digits. -/
structure Date where
  year : Nat
  month : Nat
  day : Nat
deriving DecidableEq

/-- Two-digit zero padding, as strftime's %m and %d produce. -/
def pad2 (n : Nat) : String := if n < 10 then "0" ++ toString n else toString n

/-- `dt.strftime("%Y_%m_%d")` (app.py line 100). -/
def dateStr (d : Date) : String :=
  toString d.year ++ "_" ++ pad2 d.month ++ "_" ++ pad2 d.day

/-- The three document categories of the manifest. -/
inductive Category
  | invoice
  | paymentAdvice
  | annexure
deriving DecidableEq

/-- Folder name per category (app.py lines 93-95). -/
def Category.folder : Category → String
  | .invoice => "Invoices"
  | .paymentAdvice => "Payment_Advices"
  | .annexure => "Annexures"

/-- File-name stem per category (app.py lines 103-107). -/
def Category.fileBase : Category → String
  | .invoice => "Invoice"
  | .paymentAdvice => "Payment_Advice"
  | .annexure => "Annexure"

/-- File extension per category (app.py lines 103-107). -/
def Category.ext : Category → String
  | .invoice => "pdf"
  | .paymentAdvice => "pdf"
  | .annexure => "xlsx"

/-- Full file name per category, e.g. `Invoice_2024_03_01.pdf`. -/
def Category.fileName (c : Category) (d : Date) : String :=
  c.fileBase ++ "_" ++ dateStr d ++ "." ++ c.ext

/-- Relative storage path exactly as app.py assembles it (lines 91-95 build
`temp_dir/RID_{rid}/{year}/{folder}` with `os.path.join`, lines 102-107 join
the file name onto it); shown here relative to `temp_dir`. -/
def codeDerive (rid : String) (c : Category) (d : Date) : String :=
  ("RID_" ++ rid ++ "/" ++ toString d.year ++ "/" ++ c.folder) ++ "/" ++ c.fileName d

/-- Modelled from the spec formula for the Path Deriver:
`RID_{record_id}/{year(date)}/{category_folder_name}/{category_file_prefix}_{date as YYYY_MM_DD}.{category_extension}`. -/
def specDerive (rid : String) (c : Category) (d : Date) : String :=
  "RID_" ++ rid ++ "/" ++ toString d.year ++ "/" ++ c.folder ++ "/" ++ c.fileBase
    ++ "_" ++ dateStr d ++ "." ++ c.ext

/-- C3: the relative storage path the code builds for a (record_id, category,
date) triple is exactly the spec's template — the derivation is a pure
function of the triple (hence deterministic and independent of row order) —
and the spec's worked example holds: record 42, Invoice, 2024-03-01 maps to
`RID_42/2024/Invoices/Invoice_2024_03_01.pdf`. -/
theorem path_derivation_matches_spec :
    (∀ rid c d, codeDerive rid c d = specDerive rid c d) ∧
    codeDerive "42" Category.invoice ⟨2024, 3, 1⟩
      = "RID_42/2024/Invoices/Invoice_2024_03_01.pdf" := by
  constructor
  · intro rid c d
    cases c <;>
      simp only [codeDerive, specDerive, Category.fileName, Category.fileBase,
        Category.ext, Category.folder, String.append_assoc]
  · decide

/-- Witness for C3: an instance of the path equation at another triple. -/
theorem path_derivation_matches_spec_witness :
    codeDerive "7" Category.annexure ⟨2025, 12, 31⟩
      = specDerive "7" Category.annexure ⟨2025, 12, 31⟩ :=
  path_derivation_matches_spec.1 "7" Category.annexure ⟨2025, 12, 31⟩

/-! ## Manifest rows and the download loop (app.py lines 39-58, 84-109)

A row of the lower-cased CSV.  A `none` URL field models a pandas NaN (blank
cell), for which `pd.notna` is false; `some u` models any non-null value —
note `pd.notna("")` is true, so an empty string counts as present.  `dt` is
the raw date cell handed to `pd.to_datetime`. -/
structure Row where
  restaurant_id : String
  invoice_url : Option String
  payment_advice_url : Option String
  annexure_url : Option String
  dt : String
deriving DecidableEq

/-- Outcome of `requests.get` on a URL: `connError` is an exception from the
request itself (no response, nothing written); `status code chunks streamFails`
is a response with the given status whose body iterator yields `chunks` and
then, when `streamFails` is true, raises a transport error mid-stream. -/
inductive FetchResult
  | connError
  | status (code : Nat) (chunks : List Bytes) (streamFails : Bool)
deriving DecidableEq

/-- The working tree's files: association list from relative path to bytes. -/
abbrev FS := List (String × Bytes)

/-- `open(path, "wb")` followed by writes: truncate-overwrite if the path
exists, else create it. -/
def FS.write (fs : FS) (p : String) (b : Bytes) : FS :=
  if fs.any (fun e => e.1 == p) then
    fs.map (fun e => if e.1 == p then (p, b) else e)
  else fs ++ [(p, b)]

/-- State of one batch run: created directories, written files, warning and
error messages shown so far (`st.warning` / `st.error`), and the log of URLs
passed to `requests.get` (the retrieval attempts). -/
structure St where
  dirs : List String
  files : FS
  warnings : List String
  fetched : List String
deriving DecidableEq

/-- The fresh `tempfile.mkdtemp()` working state. -/
def st0 : St := ⟨[], [], [], []⟩

/-- `download_file(url, folder, file_name)` (app.py lines 39-58).  On a 200
response it opens `folder/file_name` and streams the body chunks into it; a
mid-stream transport error is caught by the bare `except`, which reports and
returns False but deletes nothing, so the partially written file stays.  On a
non-200 status, or an exception from `requests.get` itself, the file is never
opened.  Returns the updated state and the function's boolean result. -/
def download_file (fetch : String → FetchResult) (url folder file_name : String)
    (st : St) : St × Bool :=
  let st1 : St := { st with fetched := st.fetched ++ [url] }
  match fetch url with
  | FetchResult.connError =>
      ({ st1 with warnings := st1.warnings ++ ["Error downloading " ++ file_name] }, false)
  | FetchResult.status code chunks streamFails =>
      if code = 200 then
        let st2 : St :=
          { st1 with files := st1.files.write (folder ++ "/" ++ file_name) chunks.flatten }
        if streamFails then
          ({ st2 with warnings := st2.warnings ++ ["Error downloading " ++ file_name] }, false)
        else (st2, true)
      else
        ({ st1 with warnings :=
            st1.warnings ++ ["Failed to download " ++ file_name ++ " - Status " ++ toString code] },
          false)

/-- Body of the row loop after `pd.to_datetime` succeeded with date `d`
(app.py lines 91-107): build the folder names, `os.makedirs(..., exist_ok=True)`
for all three category folders (which also creates the `RID_{rid}` and year
parents), then call `download_file` for each URL field that is `pd.notna`.
Directories are recorded as relative paths; an already-present directory is
left as is (`exist_ok=True`). -/
def pushDir (ds : List String) (d : String) : List String :=
  if d ∈ ds then ds else ds ++ [d]

def processRow (fetch : String → FetchResult) (r : Row) (d : Date) (st : St) : St :=
  let ridFolder := "RID_" ++ r.restaurant_id
  let yearFolder := ridFolder ++ "/" ++ toString d.year
  let invFolder := yearFolder ++ "/" ++ Category.folder Category.invoice
  let paFolder := yearFolder ++ "/" ++ Category.folder Category.paymentAdvice
  let annFolder := yearFolder ++ "/" ++ Category.folder Category.annexure
  let st1 : St :=
    { st with dirs :=
        pushDir (pushDir (pushDir (pushDir (pushDir st.dirs ridFolder) yearFolder)
          invFolder) paFolder) annFolder }
  let st2 := match r.invoice_url with
    | some u => (download_file fetch u invFolder (Category.fileName Category.invoice d) st1).1
    | none => st1
  let st3 := match r.payment_advice_url with
    | some u => (download_file fetch u paFolder (Category.fileName Category.paymentAdvice d) st2).1
    | none => st2
  match r.annexure_url with
  | some u => (download_file fetch u annFolder (Category.fileName Category.annexure d) st3).1
  | none => st3

/-- The row loop (app.py lines 84-109).  `pd.to_datetime(row["dt"])` raising
on an unparseable date is an uncaught exception: the whole run stops there,
modelled as `Except.error` carrying the state reached so far and the
offending raw date string. -/
def processRows (fetch : String → FetchResult) (parseDate : String → Option Date) :
    List Row → St → Except (St × String) St
  | [], st => Except.ok st
  | r :: rs, st =>
    match parseDate r.dt with
    | none => Except.error (st, r.dt)
    | some d => processRows fetch parseDate rs (processRow fetch r d st)

/-- ASCII lowercasing of one character, as `str.lower` acts on the header
names in play. -/
def lowerChar (ch : Char) : Char :=
  if 'A' ≤ ch ∧ ch ≤ 'Z' then Char.ofNat (ch.toNat + 32) else ch

/-- `df.columns.str.lower()` applied to one header (app.py line 72). -/
def lowerStr (s : String) : String := String.mk (s.data.map lowerChar)

/-- The required manifest columns (app.py line 74). -/
def required_cols : List String :=
  ["restaurant_id", "invoice_url", "payment_advice_url", "annexure_url", "dt"]

/-- Entry-name list of the zip (app.py lines 117-123).  `zipfile.ZipFile(zip_path, "w")`
creates `finance_output.zip` inside `temp_dir` *before* `os.walk(temp_dir)`
starts, so the walk's first directory listing contains the archive itself and
`zipf.write` adds it as an entry; the stored files follow, named by their
paths relative to `temp_dir`. -/
def zipEntryNames (fs : FS) : List String :=
  "finance_output.zip" :: fs.map Prod.fst

/-- Outcome of pressing Start Processing (app.py lines 65-123): a missing
required column stops the run before the row loop (`st.stop`); an unparseable
date stops it inside the row loop; otherwise the row loop finishes and the
zip is built over the working tree. -/
inductive RunResult
  | inputError (msg : String)
  | uncaughtDateError (reached : St) (raw : String)
  | done (finalSt : St) (entries : List String)
deriving DecidableEq

def runPipeline (fetch : String → FetchResult) (parseDate : String → Option Date)
    (cols : List String) (rows : List Row) : RunResult :=
  match required_cols.find? (fun c => !((cols.map lowerStr).contains c)) with
  | some c => RunResult.inputError ("CSV is missing required column: " ++ c)
  | none =>
    match processRows fetch parseDate rows st0 with
    | Except.error (st, raw) => RunResult.uncaughtDateError st raw
    | Except.ok st => RunResult.done st (zipEntryNames st.files)

/-- URLs passed to `requests.get` during the run. -/
def RunResult.fetchLog : RunResult → List String
  | .inputError _ => []
  | .uncaughtDateError st _ => st.fetched
  | .done st _ => st.fetched

/-! ## Per-item view of the download loop -/

/-- One (url, folder, file name) retrieval item of a row. -/
abbrev Item := String × String × String

/-- The path `download_file` writes for an item: `os.path.join(folder, file_name)`. -/
def itemPath (it : Item) : String := it.2.1 ++ "/" ++ it.2.2

def optUrl : Option String → String → String → List Item
  | some u, folder, fname => [(u, folder, fname)]
  | none, _, _ => []

/-- The retrieval items of one row, in the order the code attempts them:
one per category whose URL field is `pd.notna` (i.e. not `none`). -/
def Row.items (r : Row) (d : Date) : List Item :=
  let ridFolder := "RID_" ++ r.restaurant_id
  let yearFolder := ridFolder ++ "/" ++ toString d.year
  optUrl r.invoice_url (yearFolder ++ "/" ++ Category.folder Category.invoice)
      (Category.fileName Category.invoice d) ++
  (optUrl r.payment_advice_url (yearFolder ++ "/" ++ Category.folder Category.paymentAdvice)
      (Category.fileName Category.paymentAdvice d) ++
  optUrl r.annexure_url (yearFolder ++ "/" ++ Category.folder Category.annexure)
      (Category.fileName Category.annexure d))

/-- Folding `download_file` over a list of items. -/
def downloadsOf (fetch : String → FetchResult) (items : List Item) (st : St) : St :=
  items.foldl (fun s it => (download_file fetch it.1 it.2.1 it.2.2 s).1) st

/-- The `os.makedirs` part of one row iteration. -/
def mkRowDirs (r : Row) (d : Date) (st : St) : St :=
  let ridFolder := "RID_" ++ r.restaurant_id
  let yearFolder := ridFolder ++ "/" ++ toString d.year
  let invFolder := yearFolder ++ "/" ++ Category.folder Category.invoice
  let paFolder := yearFolder ++ "/" ++ Category.folder Category.paymentAdvice
  let annFolder := yearFolder ++ "/" ++ Category.folder Category.annexure
  { st with dirs :=
      pushDir (pushDir (pushDir (pushDir (pushDir st.dirs ridFolder) yearFolder)
        invFolder) paFolder) annFolder }

theorem processRow_eq (fetch : String → FetchResult) (r : Row) (d : Date) (st : St) :
    processRow fetch r d st = downloadsOf fetch (r.items d) (mkRowDirs r d st) := by
  obtain ⟨rid, iu, pu, au, dts⟩ := r
  cases iu <;> cases pu <;> cases au <;> rfl

theorem download_file_dirs (fetch : String → FetchResult) (u f n : String) (st : St) :
    ((download_file fetch u f n st).1).dirs = st.dirs := by
  unfold download_file
  cases fetch u with
  | connError => rfl
  | status code chunks sf =>
    by_cases h : code = 200
    · cases sf <;> simp [h]
    · simp [h]

theorem download_file_fetched (fetch : String → FetchResult) (u f n : String) (st : St) :
    ((download_file fetch u f n st).1).fetched = st.fetched ++ [u] := by
  unfold download_file
  cases fetch u with
  | connError => rfl
  | status code chunks sf =>
    by_cases h : code = 200
    · cases sf <;> simp [h]
    · simp [h]

theorem downloadsOf_dirs (fetch : String → FetchResult) :
    ∀ (items : List Item) (st : St), (downloadsOf fetch items st).dirs = st.dirs := by
  intro items
  induction items with
  | nil => intro st; rfl
  | cons it its ih =>
    intro st
    have hstep : downloadsOf fetch (it :: its) st
        = downloadsOf fetch its (download_file fetch it.1 it.2.1 it.2.2 st).1 := rfl
    rw [hstep, ih, download_file_dirs]

theorem pushDir_mem_self (ds : List String) (d : String) : d ∈ pushDir ds d := by
  unfold pushDir
  split
  · assumption
  · simp

theorem pushDir_mem_of_mem {ds : List String} {x : String} (d : String) (h : x ∈ ds) :
    x ∈ pushDir ds d := by
  unfold pushDir
  split
  · exact h
  · simp [h]

theorem pushDir_idem (ds : List String) (d : String) :
    pushDir (pushDir ds d) d = pushDir ds d := by
  have h : d ∈ pushDir ds d := pushDir_mem_self ds d
  show (if d ∈ pushDir ds d then pushDir ds d else pushDir ds d ++ [d]) = pushDir ds d
  rw [if_pos h]

/-- A fetch stub used by concrete instances: every request raises. -/
def stubFetch : String → FetchResult := fun _ => FetchResult.connError

/-- A fetch stub whose every request succeeds with one chunk. -/
def okFetch : String → FetchResult := fun _ => FetchResult.status 200 [[5]] false

/-- A date oracle accepting exactly "2024-03-01". -/
def cexParse : String → Option Date :=
  fun s => if s = "2024-03-01" then some ⟨2024, 3, 1⟩ else none

/-! ## C4 -/

/-- A 200 response whose body stream raises after delivering bytes [1,2],[3]. -/
def cexFetch4 : String → FetchResult := fun _ => FetchResult.status 200 [[1, 2], [3]] true

/-- C4 (code bug): a retrieval that fails with a mid-stream transport error
after a 200 status leaves the partially written file at the derived path —
`download_file` returns False yet the file holding the partial bytes [1,2,3]
persists at `RID_42/2024/Invoices/Invoice_2024_03_01.pdf`, violating the
"no file exists at the derived path after a failed retrieval" claim. -/
theorem failed_download_leaves_partial_file :
    (download_file cexFetch4 "http://x" "RID_42/2024/Invoices"
        "Invoice_2024_03_01.pdf" st0).2 = false ∧
    ((download_file cexFetch4 "http://x" "RID_42/2024/Invoices"
        "Invoice_2024_03_01.pdf" st0).1).files
      = [(codeDerive "42" Category.invoice ⟨2024, 3, 1⟩, [1, 2, 3])] :=
  ⟨rfl, rfl⟩

/-! ## C5 -/

theorem processRows_append (fetch : String → FetchResult) (parseDate : String → Option Date)
    (xs ys : List Row) (st : St) :
    processRows fetch parseDate (xs ++ ys) st =
      (match processRows fetch parseDate xs st with
       | Except.ok st1 => processRows fetch parseDate ys st1
       | Except.error e => Except.error e) := by
  induction xs generalizing st with
  | nil => rfl
  | cons r rs ih =>
    cases h : parseDate r.dt with
    | none => simp [processRows, h]
    | some d =>
      simp [processRows, h]
      exact ih _

/-- C5 amended: a row whose date does not parse makes `pd.to_datetime` raise
before any download attempt for that row; the date is never silently
defaulted, but the exception is uncaught: the run aborts at the first such
row with the state reached so far (no row-level failure is recorded for it),
and all later rows are skipped — the run can never complete normally. -/
theorem unparseable_date_abort_behavior (fetch : String → FetchResult)
    (parseDate : String → Option Date) (rows1 rows2 : List Row) (rowBad : Row)
    (hbad : parseDate rowBad.dt = none) :
    processRows fetch parseDate (rows1 ++ rowBad :: rows2) st0 =
      (match processRows fetch parseDate rows1 st0 with
       | Except.ok st1 => Except.error (st1, rowBad.dt)
       | Except.error e => Except.error e) ∧
    ∀ stf, processRows fetch parseDate (rows1 ++ rowBad :: rows2) st0 ≠ Except.ok stf := by
  have happ := processRows_append fetch parseDate rows1 (rowBad :: rows2) st0
  have hstep : ∀ st1 : St,
      processRows fetch parseDate (rowBad :: rows2) st1 = Except.error (st1, rowBad.dt) := by
    intro st1
    simp [processRows, hbad]
  constructor
  · rw [happ]
    cases hr : processRows fetch parseDate rows1 st0 with
    | ok st1 => exact hstep st1
    | error e => rfl
  · intro stf hcontra
    rw [happ] at hcontra
    cases hr : processRows fetch parseDate rows1 st0 with
    | ok st1 =>
      rw [hr] at hcontra
      dsimp only at hcontra
      rw [hstep st1] at hcontra
      exact Except.noConfusion hcontra
    | error e =>
      rw [hr] at hcontra
      dsimp only at hcontra
      exact Except.noConfusion hcontra

/-- A row whose date cell cannot be parsed. -/
def cexRowBad : Row := ⟨"2", some "http://b", none, none, "not-a-date"⟩

/-- A well-formed row with a downloadable invoice URL. -/
def cexRowGood : Row := ⟨"3", some "http://g", none, none, "2024-03-01"⟩

/-- C5 counterexample: with the unparseable-date row first, the whole batch
aborts immediately — the run ends in the uncaught-exception state equal to
the untouched initial state (no row-level failure recorded, no retrieval
attempted) and the parseable second row is never processed, refuting
"recorded as a row-level failure, and processing continues with the
remaining rows". -/
theorem unparseable_date_aborts_batch_cex :
    processRows okFetch cexParse [cexRowBad, cexRowGood] st0
      = Except.error (st0, "not-a-date") ∧
    st0.warnings = [] ∧ st0.fetched = [] :=
  ⟨rfl, rfl, rfl⟩

/-- Witness for C5 at a concrete manifest: one good row then the bad row. -/
theorem unparseable_date_abort_behavior_witness :
    cexParse cexRowBad.dt = none ∧
    (processRows okFetch cexParse ([cexRowGood] ++ cexRowBad :: []) st0 =
      (match processRows okFetch cexParse [cexRowGood] st0 with
       | Except.ok st1 => Except.error (st1, cexRowBad.dt)
       | Except.error e => Except.error e) ∧
     ∀ stf, processRows okFetch cexParse ([cexRowGood] ++ cexRowBad :: []) st0
       ≠ Except.ok stf) :=
  ⟨rfl, unparseable_date_abort_behavior okFetch cexParse [cexRowGood] [] cexRowBad rfl⟩

/-! ## C7 -/

/-- C7: a manifest missing any required column (headers compared after
lowercasing, hence case-insensitively) makes the run stop before the row
loop with the error message naming a missing required column, and no
retrieval attempt is ever made. -/
theorem missing_column_rejects_input (fetch : String → FetchResult)
    (parseDate : String → Option Date) (cols : List String) (rows : List Row)
    (c : String) (hc : c ∈ required_cols) (hmiss : ¬ c ∈ cols.map lowerStr) :
    ∃ c1, c1 ∈ required_cols ∧ ¬ c1 ∈ cols.map lowerStr ∧
      runPipeline fetch parseDate cols rows
        = RunResult.inputError ("CSV is missing required column: " ++ c1) ∧
      (runPipeline fetch parseDate cols rows).fetchLog = [] := by
  cases hfind : required_cols.find? (fun c0 => !((cols.map lowerStr).contains c0)) with
  | none =>
    exfalso
    have hall := List.find?_eq_none.mp hfind c hc
    simp at hall
    obtain ⟨x, hx, hlx⟩ := hall
    exact hmiss (List.mem_map.mpr ⟨x, hx, hlx⟩)
  | some c1 =>
    have hrun : runPipeline fetch parseDate cols rows
        = RunResult.inputError ("CSV is missing required column: " ++ c1) := by
      unfold runPipeline
      rw [hfind]
    have hp := List.find?_some hfind
    simp at hp
    have hnotmem : ¬ c1 ∈ cols.map lowerStr := by
      intro hmem
      obtain ⟨x, hx, hlx⟩ := List.mem_map.mp hmem
      exact hp x hx hlx
    exact ⟨c1, List.mem_of_find?_eq_some hfind, hnotmem, hrun, by rw [hrun]; rfl⟩

/-- Witness for C7: upper-case headers with the date column absent. -/
theorem missing_column_rejects_input_witness :
    "dt" ∈ required_cols ∧
    ¬ "dt" ∈ (["RESTAURANT_ID", "INVOICE_URL", "PAYMENT_ADVICE_URL",
        "ANNEXURE_URL"].map lowerStr) ∧
    (∃ c1, c1 ∈ required_cols ∧
      ¬ c1 ∈ (["RESTAURANT_ID", "INVOICE_URL", "PAYMENT_ADVICE_URL",
          "ANNEXURE_URL"].map lowerStr) ∧
      runPipeline stubFetch cexParse
          ["RESTAURANT_ID", "INVOICE_URL", "PAYMENT_ADVICE_URL", "ANNEXURE_URL"] []
        = RunResult.inputError ("CSV is missing required column: " ++ c1) ∧
      (runPipeline stubFetch cexParse
          ["RESTAURANT_ID", "INVOICE_URL", "PAYMENT_ADVICE_URL", "ANNEXURE_URL"] []).fetchLog
        = []) :=
  ⟨by decide, by decide,
    missing_column_rejects_input stubFetch cexParse
      ["RESTAURANT_ID", "INVOICE_URL", "PAYMENT_ADVICE_URL", "ANNEXURE_URL"] []
      "dt" (by decide) (by decide)⟩

/-! ## C8 -/

/-- C8 (code bug): because `zipfile.ZipFile(zip_path, "w")` creates
`finance_output.zip` inside `temp_dir` before `os.walk(temp_dir)` runs, the
archive's entry list always contains the archive itself: for the empty
working tree the entry list is `["finance_output.zip"]` — not the zero-entry
set of stored files the claim requires — and in general the entry list is
the stored files plus that extra self entry. -/
theorem zip_includes_itself :
    zipEntryNames [] = ["finance_output.zip"] ∧
    zipEntryNames [] ≠ ([] : FS).map Prod.fst ∧
    zipEntryNames [(codeDerive "42" Category.invoice ⟨2024, 3, 1⟩, [1])]
      = ["finance_output.zip", "RID_42/2024/Invoices/Invoice_2024_03_01.pdf"] :=
  ⟨rfl, by decide, by decide⟩

/-! ## C9 -/

/-- C9 amended: for every row, `download_file` is invoked exactly for the
category URL fields that are non-null (`pd.notna`), in category order —
null fields are skipped with no retrieval attempt.  The guard is nullness,
not non-emptiness: a present empty-string URL is attempted (see the
counterexample), and the code maintains no skipped-item counter. -/
theorem retrieval_guard_notna (fetch : String → FetchResult) (r : Row) (d : Date) (st : St) :
    (processRow fetch r d st).fetched = st.fetched ++ (r.items d).map Prod.fst := by
  obtain ⟨rid, iu, pu, au, dts⟩ := r
  cases iu <;> cases pu <;> cases au <;>
    simp [processRow, Row.items, optUrl, download_file_fetched]

/-- Witness for C9: a row with only a payment-advice URL triggers exactly
that one retrieval. -/
theorem retrieval_guard_notna_witness :
    (processRow stubFetch ⟨"9", none, some "http://p", none, "2024-03-01"⟩
        ⟨2024, 3, 1⟩ st0).fetched
      = st0.fetched
        ++ ((⟨"9", none, some "http://p", none, "2024-03-01"⟩ : Row).items
            ⟨2024, 3, 1⟩).map Prod.fst :=
  retrieval_guard_notna stubFetch ⟨"9", none, some "http://p", none, "2024-03-01"⟩
    ⟨2024, 3, 1⟩ st0

/-- A row whose invoice URL is present but the empty string. -/
def cexRow9 : Row := ⟨"1", some "", none, none, "2024-01-01"⟩

/-- C9 counterexample: `pd.notna("")` is true, so a present-but-empty URL
field is attempted — the fetch log after the row is `[""]` although the
empty string is not a non-empty URL, refuting "invoked exactly when that
category's URL field is present and non-empty". -/
theorem empty_url_attempted_cex :
    (processRow stubFetch cexRow9 ⟨2024, 1, 1⟩ st0).fetched = [""] ∧
    ("" : String).length = 0 :=
  ⟨rfl, rfl⟩

/-! ## C10 -/

/-- C10: every row iteration (after its date parsed) creates all three
category directories `RID_{rid}/{year}/{Invoices,Payment_Advices,Annexures}`
— also for categories whose URL field is null — the `exist_ok=True`
directory creation is idempotent, and directories contribute no archive
entries: every zip entry is the self entry or a stored file's path. -/
theorem category_dirs_created (fetch : String → FetchResult) (r : Row) (d : Date) (st : St) :
    ("RID_" ++ r.restaurant_id ++ "/" ++ toString d.year ++ "/" ++ "Invoices")
        ∈ (processRow fetch r d st).dirs ∧
    ("RID_" ++ r.restaurant_id ++ "/" ++ toString d.year ++ "/" ++ "Payment_Advices")
        ∈ (processRow fetch r d st).dirs ∧
    ("RID_" ++ r.restaurant_id ++ "/" ++ toString d.year ++ "/" ++ "Annexures")
        ∈ (processRow fetch r d st).dirs ∧
    (∀ ds x, pushDir (pushDir ds x) x = pushDir ds x) ∧
    (∀ fs : FS, ∀ e, e ∈ zipEntryNames fs →
      e = "finance_output.zip" ∨ e ∈ fs.map Prod.fst) := by
  have hdirs : (processRow fetch r d st).dirs = (mkRowDirs r d st).dirs := by
    rw [processRow_eq]
    exact downloadsOf_dirs fetch (r.items d) (mkRowDirs r d st)
  refine ⟨?_, ?_, ?_, fun ds x => pushDir_idem ds x, fun fs e he => List.mem_cons.mp he⟩
  · rw [hdirs]
    exact pushDir_mem_of_mem _ (pushDir_mem_of_mem _ (pushDir_mem_self _ _))
  · rw [hdirs]
    exact pushDir_mem_of_mem _ (pushDir_mem_self _ _)
  · rw [hdirs]
    exact pushDir_mem_self _ _

/-- Witness for C10 at a concrete row with no URLs at all. -/
theorem category_dirs_created_witness :
    ("RID_" ++ "5" ++ "/" ++ toString (2023 : Nat) ++ "/" ++ "Invoices")
        ∈ (processRow stubFetch ⟨"5", none, none, none, "x"⟩ ⟨2023, 1, 2⟩ st0).dirs ∧
    ("RID_" ++ "5" ++ "/" ++ toString (2023 : Nat) ++ "/" ++ "Payment_Advices")
        ∈ (processRow stubFetch ⟨"5", none, none, none, "x"⟩ ⟨2023, 1, 2⟩ st0).dirs ∧
    ("RID_" ++ "5" ++ "/" ++ toString (2023 : Nat) ++ "/" ++ "Annexures")
        ∈ (processRow stubFetch ⟨"5", none, none, none, "x"⟩ ⟨2023, 1, 2⟩ st0).dirs ∧
    (∀ ds x, pushDir (pushDir ds x) x = pushDir ds x) ∧
    (∀ fs : FS, ∀ e, e ∈ zipEntryNames fs →
      e = "finance_output.zip" ∨ e ∈ fs.map Prod.fst) :=
  category_dirs_created stubFetch ⟨"5", none, none, none, "x"⟩ ⟨2023, 1, 2⟩ st0

/-! ## C6: accounting of attempts, failures and stored files -/

/-- Items of one row given the date oracle (empty when the date cannot
parse; such a row aborts the run and contributes no attempts). -/
def rowItems (parseDate : String → Option Date) (r : Row) : List Item :=
  match parseDate r.dt with
  | some d => r.items d
  | none => []

/-- All (row, category) retrieval items of a manifest, in attempt order. -/
def allItems (parseDate : String → Option Date) (rows : List Row) : List Item :=
  (rows.map (rowItems parseDate)).flatten

/-- Whether `download_file` reports failure for this URL: a connection
error, a non-200 status, or a mid-stream transport error. -/
def isFail (fetch : String → FetchResult) (u : String) : Bool :=
  match fetch u with
  | FetchResult.connError => true
  | FetchResult.status code _ streamFails => !(code == 200) || streamFails

/-- No URL fails mid-stream after a 200 status (the failure mode whose
partial file breaks the stored-file count, see C4). -/
def noMidFail (fetch : String → FetchResult) : Prop :=
  ∀ u code chunks, fetch u = FetchResult.status code chunks true → code ≠ 200

theorem FS.write_fresh (fs : FS) (p : String) (b : Bytes)
    (h : ¬ p ∈ fs.map Prod.fst) : fs.write p b = fs ++ [(p, b)] := by
  unfold FS.write
  rw [if_neg]
  intro hc
  rcases List.any_eq_true.mp hc with ⟨e, he, heq⟩
  exact h (List.mem_map.mpr ⟨e, he, by simpa using heq⟩)

theorem download_file_step (fetch : String → FetchResult) (hmid : noMidFail fetch)
    (u f n : String) (st : St)
    (hfresh : ¬ (f ++ "/" ++ n) ∈ st.files.map Prod.fst) :
    ((download_file fetch u f n st).1).fetched = st.fetched ++ [u] ∧
    ((download_file fetch u f n st).1).warnings.length
      = st.warnings.length + (if isFail fetch u then 1 else 0) ∧
    ((download_file fetch u f n st).1).files.map Prod.fst
      = st.files.map Prod.fst ++ (if isFail fetch u then [] else [f ++ "/" ++ n]) := by
  unfold download_file isFail
  cases hf : fetch u with
  | connError => simp
  | status code chunks sf =>
    by_cases h200 : code = 200
    · subst h200
      cases sf with
      | true => exact absurd rfl (hmid u 200 chunks hf)
      | false =>
        simp [FS.write_fresh st.files (f ++ "/" ++ n) chunks.flatten hfresh]
    · simp [h200]

theorem downloadsOf_report (fetch : String → FetchResult) (hmid : noMidFail fetch) :
    ∀ (items : List Item) (st : St),
      (∀ it ∈ items, ¬ itemPath it ∈ st.files.map Prod.fst) →
      ((items.map itemPath).Nodup) →
      (downloadsOf fetch items st).fetched = st.fetched ++ items.map Prod.fst ∧
      (downloadsOf fetch items st).warnings.length
        = st.warnings.length + items.countP (fun it => isFail fetch it.1) ∧
      (downloadsOf fetch items st).files.map Prod.fst
        = st.files.map Prod.fst
          ++ (items.filter (fun it => !(isFail fetch it.1))).map itemPath := by
  intro items
  induction items with
  | nil =>
    intro st hfresh hnodup
    exact ⟨by simp [downloadsOf], by simp [downloadsOf], by simp [downloadsOf]⟩
  | cons it its ih =>
    intro st hfresh hnodup
    have hstep : downloadsOf fetch (it :: its) st
        = downloadsOf fetch its (download_file fetch it.1 it.2.1 it.2.2 st).1 := rfl
    have hfr : ¬ (it.2.1 ++ "/" ++ it.2.2) ∈ st.files.map Prod.fst := hfresh it (by simp)
    obtain ⟨hfet, hwarn, hfil⟩ := download_file_step fetch hmid it.1 it.2.1 it.2.2 st hfr
    have hnodup2 : itemPath it ∉ its.map itemPath ∧ (its.map itemPath).Nodup := by
      rw [List.map_cons] at hnodup
      exact List.nodup_cons.mp hnodup
    have hfresh2 : ∀ x ∈ its,
        ¬ itemPath x ∈ ((download_file fetch it.1 it.2.1 it.2.2 st).1).files.map Prod.fst := by
      intro x hx hmem
      rw [hfil] at hmem
      rcases List.mem_append.mp hmem with hm | hm
      · exact hfresh x (List.mem_cons_of_mem it hx) hm
      · by_cases hfail : isFail fetch it.1
        · rw [if_pos hfail] at hm
          simp at hm
        · rw [if_neg hfail] at hm
          simp at hm
          apply hnodup2.1
          have hpx : itemPath x = itemPath it := hm
          rw [← hpx]
          exact List.mem_map.mpr ⟨x, hx, rfl⟩
    obtain ⟨ihf, ihw, ihfl⟩ :=
      ih (download_file fetch it.1 it.2.1 it.2.2 st).1 hfresh2 hnodup2.2
    rw [hstep]
    refine ⟨?_, ?_, ?_⟩
    · rw [ihf, hfet]
      simp
    · rw [ihw, hwarn, List.countP_cons]
      by_cases hfail : isFail fetch it.1
      · simp [hfail]
        omega
      · simp [hfail]
    · rw [ihfl, hfil, List.filter_cons]
      by_cases hfail : isFail fetch it.1
      · simp [hfail]
      · simp [hfail, itemPath]

theorem mkRowDirs_files (r : Row) (d : Date) (st : St) :
    (mkRowDirs r d st).files = st.files := rfl

theorem mkRowDirs_fetched (r : Row) (d : Date) (st : St) :
    (mkRowDirs r d st).fetched = st.fetched := rfl

theorem mkRowDirs_warnings (r : Row) (d : Date) (st : St) :
    (mkRowDirs r d st).warnings = st.warnings := rfl

theorem processRow_report (fetch : String → FetchResult) (hmid : noMidFail fetch)
    (r : Row) (d : Date) (st : St)
    (hfresh : ∀ it ∈ r.items d, ¬ itemPath it ∈ st.files.map Prod.fst)
    (hnodup : ((r.items d).map itemPath).Nodup) :
    (processRow fetch r d st).fetched = st.fetched ++ (r.items d).map Prod.fst ∧
    (processRow fetch r d st).warnings.length
      = st.warnings.length + (r.items d).countP (fun it => isFail fetch it.1) ∧
    (processRow fetch r d st).files.map Prod.fst
      = st.files.map Prod.fst
        ++ ((r.items d).filter (fun it => !(isFail fetch it.1))).map itemPath := by
  rw [processRow_eq]
  have h := downloadsOf_report fetch hmid (r.items d) (mkRowDirs r d st)
    (by intro it hit; rw [mkRowDirs_files]; exact hfresh it hit) hnodup
  rw [mkRowDirs_files, mkRowDirs_fetched, mkRowDirs_warnings] at h
  exact h

theorem processRows_report (fetch : String → FetchResult)
    (parseDate : String → Option Date) (hmid : noMidFail fetch) :
    ∀ (rows : List Row) (st : St),
      (∀ r ∈ rows, (parseDate r.dt).isSome = true) →
      (∀ it ∈ allItems parseDate rows, ¬ itemPath it ∈ st.files.map Prod.fst) →
      ((allItems parseDate rows).map itemPath).Nodup →
      ∃ stf, processRows fetch parseDate rows st = Except.ok stf ∧
        stf.fetched = st.fetched ++ (allItems parseDate rows).map Prod.fst ∧
        stf.warnings.length
          = st.warnings.length + (allItems parseDate rows).countP (fun it => isFail fetch it.1) ∧
        stf.files.map Prod.fst
          = st.files.map Prod.fst
            ++ ((allItems parseDate rows).filter (fun it => !(isFail fetch it.1))).map itemPath := by
  intro rows
  induction rows with
  | nil =>
    intro st hdates hfresh hnodup
    exact ⟨st, rfl, by simp [allItems], by simp [allItems], by simp [allItems]⟩
  | cons r rs ih =>
    intro st hdates hfresh hnodup
    obtain ⟨d, hd⟩ := Option.isSome_iff_exists.mp (hdates r (by simp))
    have hAll : allItems parseDate (r :: rs) = r.items d ++ allItems parseDate rs := by
      simp [allItems, rowItems, hd]
    rw [hAll] at hfresh hnodup
    rw [List.map_append] at hnodup
    obtain ⟨hndRow, hndRest, hdisj⟩ := List.nodup_append.mp hnodup
    have hfreshRow : ∀ it ∈ r.items d, ¬ itemPath it ∈ st.files.map Prod.fst := by
      intro it hit
      exact hfresh it (List.mem_append.mpr (Or.inl hit))
    obtain ⟨hrf, hrw, hrfl⟩ := processRow_report fetch hmid r d st hfreshRow hndRow
    have hfreshRest : ∀ it ∈ allItems parseDate rs,
        ¬ itemPath it ∈ (processRow fetch r d st).files.map Prod.fst := by
      intro it hit hmem
      rw [hrfl] at hmem
      rcases List.mem_append.mp hmem with hm | hm
      · exact hfresh it (List.mem_append.mpr (Or.inr hit)) hm
      · obtain ⟨it2, hit2, hpeq⟩ := List.mem_map.mp hm
        have hit2row : it2 ∈ r.items d := List.mem_of_mem_filter hit2
        exact hdisj (List.mem_map.mpr ⟨it2, hit2row, rfl⟩)
          (by rw [hpeq]; exact List.mem_map.mpr ⟨it, hit, rfl⟩)
    obtain ⟨stf, hok, hf, hw, hfl⟩ := ih (processRow fetch r d st)
      (fun r2 hr2 => hdates r2 (List.mem_cons_of_mem r hr2)) hfreshRest hndRest
    have hrun : processRows fetch parseDate (r :: rs) st
        = processRows fetch parseDate rs (processRow fetch r d st) := by
      simp [processRows, hd]
    refine ⟨stf, by rw [hrun]; exact hok, ?_, ?_, ?_⟩
    · rw [hf, hrf, hAll]
      simp
    · rw [hw, hrw, hAll, List.countP_append]
      omega
    · rw [hfl, hrfl, hAll, List.filter_append, List.map_append]
      simp

/-- C6 amended: for a manifest whose dates all parse, whose derived item
paths are pairwise distinct, and with no mid-stream failure after a 200
status (the C4 bug mode, which additionally leaves a partial file), the run
completes without halting, every one of the N present-URL items is attempted
in order (no item failure aborts the batch or skips later items), each of
the K failures is recorded as one warning message, and exactly N − K files
are stored. -/
theorem partial_failure_tolerance (fetch : String → FetchResult)
    (parseDate : String → Option Date) (rows : List Row)
    (hmid : noMidFail fetch)
    (hdates : ∀ r ∈ rows, (parseDate r.dt).isSome = true)
    (hnodup : ((allItems parseDate rows).map itemPath).Nodup) :
    ∃ stf, processRows fetch parseDate rows st0 = Except.ok stf ∧
      stf.fetched = (allItems parseDate rows).map Prod.fst ∧
      stf.warnings.length = (allItems parseDate rows).countP (fun it => isFail fetch it.1) ∧
      stf.files.length
        = (allItems parseDate rows).length
          - (allItems parseDate rows).countP (fun it => isFail fetch it.1) := by
  obtain ⟨stf, hok, hf, hw, hfl⟩ := processRows_report fetch parseDate hmid rows st0
    hdates (by intro it hit hmem; simp [st0] at hmem) hnodup
  refine ⟨stf, hok, by simpa [st0] using hf, by simpa [st0] using hw, ?_⟩
  have hlen : stf.files.length
      = ((allItems parseDate rows).filter (fun it => !(isFail fetch it.1))).length := by
    have hmap := congrArg List.length hfl
    simpa [st0] using hmap
  rw [hlen]
  have hsum := List.length_eq_countP_add_countP (fun it : Item => isFail fetch it.1)
    (l := allItems parseDate rows)
  have hfilt : ((allItems parseDate rows).filter (fun it => !(isFail fetch it.1))).length
      = (allItems parseDate rows).countP (fun it => !(isFail fetch it.1)) :=
    (List.countP_eq_length_filter _ _).symm
  have hcong : (allItems parseDate rows).countP (fun it => !(isFail fetch it.1))
      = (allItems parseDate rows).countP (fun it => ¬ (isFail fetch it.1 = true)) := by
    apply List.countP_congr
    intro a ha
    cases hfa : isFail fetch a.1 <;> simp
  rw [hfilt, hcong]
  omega

/-- A fetch oracle for the witness: one URL succeeds, every other returns
status 404. -/
def wFetch6 : String → FetchResult := fun u =>
  if u = "u-ok" then FetchResult.status 200 [[1]] false
  else FetchResult.status 404 [] false

/-- Witness row: invoice URL succeeds, payment-advice URL fails, annexure
absent — N = 2, K = 1. -/
def cexRow6w : Row := ⟨"1", some "u-ok", some "u-bad", none, "2024-03-01"⟩

/-- Witness for C6 on a one-row manifest with one success and one failure. -/
theorem partial_failure_tolerance_witness :
    noMidFail wFetch6 ∧
    (∀ r ∈ [cexRow6w], (cexParse r.dt).isSome = true) ∧
    ((allItems cexParse [cexRow6w]).map itemPath).Nodup ∧
    (∃ stf, processRows wFetch6 cexParse [cexRow6w] st0 = Except.ok stf ∧
      stf.fetched = (allItems cexParse [cexRow6w]).map Prod.fst ∧
      stf.warnings.length
        = (allItems cexParse [cexRow6w]).countP (fun it => isFail wFetch6 it.1) ∧
      stf.files.length
        = (allItems cexParse [cexRow6w]).length
          - (allItems cexParse [cexRow6w]).countP (fun it => isFail wFetch6 it.1)) := by
  have hmid : noMidFail wFetch6 := by
    intro u code chunks h
    unfold wFetch6 at h
    split at h <;> injection h with h1 h2 h3 <;> simp at h3
  exact ⟨hmid, by decide, by decide,
    partial_failure_tolerance wFetch6 cexParse [cexRow6w] hmid (by decide) (by decide)⟩

/-- A 200 response that fails mid-stream after one chunk. -/
def cexFetch6 : String → FetchResult := fun _ => FetchResult.status 200 [[7]] true

/-- A single-row manifest with one present URL. -/
def cexRow6 : Row := ⟨"1", some "u", none, none, "2024-03-01"⟩

/-- C6 counterexample: one attempted item (N = 1) whose retrieval fails
mid-stream (K = 1): the run completes and the failure is recorded, but one
file — the partial one — is stored, whereas the claim requires exactly
N − K = 0 stored files. -/
theorem midstream_failure_store_count_cex :
    (processRows cexFetch6 cexParse [cexRow6] st0).toOption.map
        (fun st => (st.fetched.length, st.warnings.length, st.files.length))
      = some (1, 1, 1) ∧
    ¬ ((1 : Nat) = 1 - 1) :=
  ⟨rfl, by decide⟩
